import Mathlib

/-!
Verification of the spread-feed order-book aggregation service.

The development shallowly embeds the core of the repository:
  * `iter_utils.rs`  — the `OrderedChain` merge iterator (as `ordChain` on lists);
  * `aggregator.rs`  — the `aggerate_levels` merge step (as `aggregateLevelsFuel`
    with the explicit `ret.len() < 10` capacity as fuel), the per-venue book
    update with defensive re-sort, the Bitstamp frame decoder (mirroring the
    serde internally-tagged-enum semantics of `FeedMessage`), and one iteration
    of the aggregator main loop including the broadcast publish.

`rust_decimal::Decimal` prices and quantities are modelled as exact rationals;
the `Decimal`-to-`f64` conversion at the publication boundary is modelled as the
identity embedding into the same rationals.
-/

namespace SpreadFeed

/-- Model of `rust_decimal::Decimal` (exact decimal arithmetic) as ℚ. -/
abbrev Price : Type := ℚ

/-- Model of `rust_decimal::Decimal` quantities as ℚ. -/
abbrev Qty : Type := ℚ

/-- Alias for `type Level = (Price, Qty)` from `aggregator.rs`. -/
abbrev Level : Type := Price × Qty

/-- Modelled from the spec: the generated protobuf `Level` message
(`service::Level`, used as `SummaryLevel` in `aggregator.rs`): venue tag,
price and amount; `f64` fields modelled as exact rationals. -/
structure SummaryLevel where
  exchange : String
  price : ℚ
  amount : ℚ
deriving DecidableEq, Repr

instance : Inhabited SummaryLevel := ⟨⟨"", 0, 0⟩⟩

/-- Modelled from the spec: the generated protobuf `Summary` message
(`service::Summary`): spread plus the two merged sides. -/
structure Summary where
  spread : ℚ
  bids : List SummaryLevel
  asks : List SummaryLevel
deriving DecidableEq, Repr

/-- The per-venue `Book` of `aggregator.rs`: a bid side and an ask side. -/
structure Book where
  bids : List Level
  asks : List Level
deriving DecidableEq, Repr

/-- The `make_level` closure of `aggerate_levels`. -/
def make_level (exchange : String) (px : Price) (qty : Qty) : SummaryLevel :=
  { exchange := exchange, price := px, amount := qty }

/-- The loop body of `aggerate_levels` in `aggregator.rs`.  The Rust loop runs
`while ret.len() < 10`; the first argument is the remaining capacity
(`10 - ret.len()`), so the top-level call uses fuel `10`. -/
def aggregateLevelsFuel (cmp : Price → Price → Ordering) :
    Nat → List Level → List Level → List SummaryLevel
  | 0, _, _ => []
  | _ + 1, [], [] => []
  | n + 1, (px, qty) :: as, [] =>
    make_level "bitstamp" px qty :: aggregateLevelsFuel cmp n as []
  | n + 1, [], (px, qty) :: bs =>
    make_level "binance" px qty :: aggregateLevelsFuel cmp n [] bs
  | n + 1, (bitstamp_px, bitstamp_qty) :: as, (binance_px, binance_qty) :: bs =>
    match cmp bitstamp_px binance_px with
    | .lt =>
      make_level "bitstamp" bitstamp_px bitstamp_qty ::
        aggregateLevelsFuel cmp n as ((binance_px, binance_qty) :: bs)
    | .eq =>
      if bitstamp_qty > binance_qty then
        make_level "bitstamp" bitstamp_px bitstamp_qty ::
          aggregateLevelsFuel cmp n as ((binance_px, binance_qty) :: bs)
      else
        make_level "binance" binance_px binance_qty ::
          aggregateLevelsFuel cmp n ((bitstamp_px, bitstamp_qty) :: as) bs
    | .gt =>
      make_level "binance" binance_px binance_qty ::
        aggregateLevelsFuel cmp n ((bitstamp_px, bitstamp_qty) :: as) bs

/-- Function `aggerate_levels` from `aggregator.rs` (source argument order: Bitstamp
levels, Binance levels, comparison). -/
def aggerate_levels (bitstamp_levels binance_levels : List Level)
    (cmp : Price → Price → Ordering) : List SummaryLevel :=
  aggregateLevelsFuel cmp 10 bitstamp_levels binance_levels

/-- The bid-side comparison closure `|a, b| a.cmp(b).reverse()` of
`aggregator_task`. -/
def cmpBid (a b : Price) : Ordering := (compare a b).swap

/-- The ask-side comparison closure `|a, b| a.cmp(b)` of `aggregator_task`. -/
def cmpAsk (a b : Price) : Ordering := compare a b

/-- The tail of the aggregator main loop after a frame falls through: compute
both merged sides; if either is empty, `continue` (no `Summary`); otherwise
build the `Summary` with `spread = asks[0].price - bids[0].price`. -/
def computeSummary (bitstamp_book binance_book : Book) : Option Summary :=
  let bids := aggerate_levels bitstamp_book.bids binance_book.bids cmpBid
  let asks := aggerate_levels bitstamp_book.asks binance_book.asks cmpAsk
  match bids, asks with
  | bb :: brest, ab :: arest =>
    some { spread := ab.price - bb.price, bids := bb :: brest, asks := ab :: arest }
  | _, _ => none

/-- The defensive re-sort of a bid side on every update:
`bids.sort_by(|(px_a, _), (px_b, _)| px_b.cmp(px_a))` (stable, descending by
price), modelled by stable insertion sort. -/
def sortBids (l : List Level) : List Level :=
  List.insertionSort (fun x y => y.1 ≤ x.1) l

/-- The defensive re-sort of an ask side on every update:
`asks.sort_by_key(|(px, _)| *px)` (stable, ascending by price), modelled by
stable insertion sort. -/
def sortAsks (l : List Level) : List Level :=
  List.insertionSort (fun x y => x.1 ≤ y.1) l

/-- The payload of `bitstamp::BookUpdate` and `binance::BookUpdate`: full
bid/ask arrays of decimal pairs. -/
structure BookUpdateMsg where
  bids : List Level
  asks : List Level
deriving DecidableEq, Repr

/-- Abstraction of a decoded Bitstamp JSON text frame: the `event` tag and the
fields the `FeedMessage` variants require (absent fields are `none`). -/
structure BitstampJson where
  event : String
  channel : Option String
  code : Option Nat
  message : Option String
  data : Option BookUpdateMsg
deriving DecidableEq, Repr

/-- Enum `bitstamp::FeedMessage` from `aggregator.rs`. -/
inductive FeedMessage where
  | subscriptionSucceeded (channel : String)
  | bitstampError (code : Nat) (message : String)
  | data (channel : String) (d : BookUpdateMsg)
deriving DecidableEq, Repr

/-- serde deserialization of `bitstamp::FeedMessage`
(`#[serde(tag = "event", rename_all = "snake_case")]`): the `event` tag must
equal one of the three variant tags — `bts:subscription_succeeded`,
`bts:error`, or `data` — and an unknown tag is an unknown-variant decode
failure; each matched variant then requires its fields. -/
def decodeFeedMessage (f : BitstampJson) : Except String FeedMessage :=
  if f.event = "bts:subscription_succeeded" then
    match f.channel with
    | some c => .ok (.subscriptionSucceeded c)
    | none => .error "missing field channel"
  else if f.event = "bts:error" then
    match f.code, f.message with
    | some c, some m => .ok (.bitstampError c m)
    | _, _ => .error "missing field"
  else if f.event = "data" then
    match f.channel, f.data with
    | some c, some d => .ok (.data c d)
    | _, _ => .error "missing field"
  else .error "unknown variant"

/-- A websocket message (`tungstenite::Message`): text frames carry a
venue-specific payload model; the non-text frames are ping, pong, binary and
close. -/
inductive WsMessage (α : Type) where
  | text (payload : α)
  | ping
  | pong
  | binary
  | close
deriving DecidableEq, Repr

/-- One item produced by `ws.next()`: `Some(Ok(m))`, `Some(Err(e))`, or `None`
(stream end). -/
inductive StreamItem (α : Type) where
  | item (m : WsMessage α)
  | transportError
  | streamEnd
deriving DecidableEq, Repr

/-- The mutable state owned by the aggregator task: the two venue books. -/
structure AggState where
  bitstamp_book : Book
  binance_book : Book
deriving DecidableEq, Repr

/-- Outcome of one `select!` arm: fall through to the aggregation code below
the `select!` (`proceed`), jump back to the loop head (`skip`, the `continue`
paths), or panic. -/
inductive ArmResult where
  | proceed (st : AggState)
  | skip (st : AggState)
  | panicked (msg : String)
deriving DecidableEq, Repr

/-- The Bitstamp arm of the `select!` in `aggregator_task`.  Note the source
catch-all for non-text messages is `_ => {}`, which falls through to the
aggregation code rather than `continue`. -/
def bitstampArm (st : AggState) (i : StreamItem BitstampJson) : ArmResult :=
  match i with
  | .item (.text payload) =>
    match decodeFeedMessage payload with
    | .ok (.data _ d) =>
      .proceed { st with bitstamp_book := { bids := sortBids d.bids, asks := sortAsks d.asks } }
    | .ok (.bitstampError _ m) => .panicked ("Failed to subscribe to symbol, " ++ m)
    | .error e => .panicked ("Failed to parse bitstamp payload, " ++ e)
    | .ok (.subscriptionSucceeded _) => .skip st
  | .item _ => .proceed st
  | .transportError => .panicked "Error from bitstamp socket"
  | .streamEnd => .panicked "Disconnected from bitstamp"

/-- The Binance arm of the `select!` in `aggregator_task`.  Text payloads are
modelled post-parse (`none` = serde failure).  The source catch-all for
non-text messages is `_ => { continue; }`. -/
def binanceArm (st : AggState) (i : StreamItem (Option BookUpdateMsg)) : ArmResult :=
  match i with
  | .item (.text (some update)) =>
    .proceed { st with binance_book := { bids := sortBids update.bids, asks := sortAsks update.asks } }
  | .item (.text none) => .panicked "Failed to parse payload from binance"
  | .item _ => .skip st
  | .transportError => .panicked "Error from binance socket"
  | .streamEnd => .panicked "Disconnected from binance"

/-- One firing of the `select!`: a frame item from one of the two venues. -/
inductive SelectEvent where
  | fromBitstamp (i : StreamItem BitstampJson)
  | fromBinance (i : StreamItem (Option BookUpdateMsg))
deriving DecidableEq, Repr

/-- Dispatch a `select!` firing to the matching arm. -/
def armStep (st : AggState) (ev : SelectEvent) : ArmResult :=
  match ev with
  | .fromBitstamp i => bitstampArm st i
  | .fromBinance i => binanceArm st i

/-- Model of `tokio::sync::broadcast::Sender::send`: returns the receiver count on
success and `Err(SendError(value))` exactly when there are currently no
receivers. -/
def broadcastSend (receivers : Nat) (s : Summary) : Except Summary Nat :=
  if receivers = 0 then .error s else .ok receivers

/-- Outcome of one iteration of the aggregator main loop: loop again (with the
`Summary` published this iteration, if any), panic, or return the propagated
`SendError` (the `?` on `tx.send`). -/
inductive IterOutcome where
  | next (st : AggState) (published : Option Summary)
  | fatal (msg : String)
  | sendFailure (st : AggState) (s : Summary)
deriving DecidableEq, Repr

/-- Whether an iteration outcome loops again. -/
def IterOutcome.isNext : IterOutcome → Bool
  | .next _ _ => true
  | _ => false

/-- Whether an iteration outcome is a propagated send error. -/
def IterOutcome.isSendFailure : IterOutcome → Bool
  | .sendFailure _ _ => true
  | _ => false

/-- One full iteration of the aggregator main loop of `aggregator_task`:
run the fired `select!` arm; on `continue` paths re-enter the loop; otherwise
recompute both sides, skip publication when a side is empty, and publish over
the broadcast channel, propagating a failed send. -/
def loopIteration (st : AggState) (ev : SelectEvent) (receivers : Nat) : IterOutcome :=
  match armStep st ev with
  | .panicked m => .fatal m
  | .skip st1 => .next st1 none
  | .proceed st1 =>
    match computeSummary st1.bitstamp_book st1.binance_book with
    | none => .next st1 none
    | some s =>
      match broadcastSend receivers s with
      | .ok _ => .next st1 (some s)
      | .error _ => .sendFailure st1 s

/-- Remove the origin tag from a merged element. -/
def untag {α : Type} : α ⊕ α → α := Sum.elim id id

/-- Iterator `OrderedChain::next` from `iter_utils.rs`, unfolded over lists: with both
heads present, consume from `A` exactly when `a.cmp(b) == self.cmp`, otherwise
from `B`; with one side exhausted, drain the other; tagged with the origin. -/
def ordChain {α : Type} [LinearOrder α] (d : Ordering) :
    List α → List α → List (α ⊕ α)
  | [], [] => []
  | a :: as, [] => .inl a :: ordChain d as []
  | [], b :: bs => .inr b :: ordChain d [] bs
  | a :: as, b :: bs =>
    if compare a b = d then .inl a :: ordChain d as (b :: bs)
    else .inr b :: ordChain d (a :: as) bs
termination_by x y => x.length + y.length

/-- The price column of a level list. -/
def prices (A : List Level) : List ℚ := A.map Prod.fst

theorem ordChain_nil_right {α : Type} [LinearOrder α] (d : Ordering) :
    ∀ (A : List α), ordChain d A [] = A.map Sum.inl
  | [] => by simp [ordChain]
  | a :: as => by simp [ordChain, ordChain_nil_right d as]

theorem ordChain_nil_left {α : Type} [LinearOrder α] (d : Ordering) :
    ∀ (B : List α), ordChain d [] B = B.map Sum.inr
  | [] => by simp [ordChain]
  | b :: bs => by simp [ordChain, ordChain_nil_left d bs]

theorem ordChain_perm {α : Type} [LinearOrder α] (d : Ordering) :
    ∀ (A B : List α), List.Perm ((ordChain d A B).map untag) (A ++ B)
  | [], [] => by simp [ordChain]
  | a :: as, [] => by
    simp [ordChain_nil_right, untag, List.map_map]
  | [], b :: bs => by
    simp [ordChain_nil_left, untag, List.map_map]
  | a :: as, b :: bs => by
    rw [ordChain]
    by_cases h : compare a b = d
    · rw [if_pos h]
      simpa [untag] using (ordChain_perm d as (b :: bs)).cons a
    · rw [if_neg h]
      have ih := (ordChain_perm d (a :: as) bs).cons b
      simp only [List.map_cons, untag, Sum.elim_inr, id] at ih ⊢
      exact ih.trans (List.perm_middle).symm
termination_by A B => A.length + B.length

theorem ordChain_sorted_general {α : Type} [LinearOrder α] (d : Ordering)
    (r : α → α → Prop)
    (hcd : ∀ x y, compare x y = d → r x y)
    (hcnd : ∀ x y, compare x y ≠ d → r y x)
    (htr : Transitive r) :
    ∀ (A B : List α), A.Sorted r → B.Sorted r →
      ((ordChain d A B).map untag).Sorted r
  | [], [] => fun _ _ => by simp [ordChain]
  | a :: as, [] => fun hA _ => by
    rw [ordChain_nil_right]
    simpa [untag, List.map_map] using hA
  | [], b :: bs => fun _ hB => by
    rw [ordChain_nil_left]
    simpa [untag, List.map_map] using hB
  | a :: as, b :: bs => fun hA hB => by
    rcases List.sorted_cons.mp hA with ⟨ha, hA'⟩
    rcases List.sorted_cons.mp hB with ⟨hb, hB'⟩
    rw [ordChain]
    by_cases h : compare a b = d
    · rw [if_pos h]
      simp only [List.map_cons, untag, Sum.elim_inl, id_eq]
      refine List.sorted_cons.mpr ⟨?_, ?_⟩
      · intro x hx
        have hx' : x ∈ as ++ b :: bs := (ordChain_perm d as (b :: bs)).mem_iff.mp hx
        rcases List.mem_append.mp hx' with h1 | h2
        · exact ha x h1
        · rcases List.mem_cons.mp h2 with heq | h3
          · exact heq ▸ hcd a b h
          · exact htr (hcd a b h) (hb x h3)
      · have := ordChain_sorted_general d r hcd hcnd htr as (b :: bs) hA' hB
        simpa [untag] using this
    · rw [if_neg h]
      simp only [List.map_cons, untag, Sum.elim_inr, id_eq]
      refine List.sorted_cons.mpr ⟨?_, ?_⟩
      · intro x hx
        have hx' : x ∈ (a :: as) ++ bs := (ordChain_perm d (a :: as) bs).mem_iff.mp hx
        rcases List.mem_append.mp hx' with h1 | h2
        · rcases List.mem_cons.mp h1 with heq | h3
          · exact heq ▸ hcnd a b h
          · exact htr (hcnd a b h) (ha x h3)
        · exact hb x h2
      · have := ordChain_sorted_general d r hcd hcnd htr (a :: as) bs hA hB'
        simpa [untag] using this
termination_by A B => A.length + B.length

theorem aggregateLevelsFuel_length (cmp : Price → Price → Ordering) :
    ∀ (n : Nat) (A B : List Level),
      (aggregateLevelsFuel cmp n A B).length = min n (A.length + B.length)
  | 0, A, B => by simp [aggregateLevelsFuel]
  | n + 1, [], [] => by simp [aggregateLevelsFuel]
  | n + 1, (px, qty) :: as, [] => by
    have ih := aggregateLevelsFuel_length cmp n as []
    simp [aggregateLevelsFuel, ih]
    omega
  | n + 1, [], (px, qty) :: bs => by
    have ih := aggregateLevelsFuel_length cmp n [] bs
    simp [aggregateLevelsFuel, ih]
    omega
  | n + 1, (apx, aq) :: as, (bpx, bq) :: bs => by
    rcases hc : cmp apx bpx with _ | _ | _
    · have ih := aggregateLevelsFuel_length cmp n as ((bpx, bq) :: bs)
      simp [aggregateLevelsFuel, hc, ih]
      omega
    · by_cases hq : aq > bq
      · have ih := aggregateLevelsFuel_length cmp n as ((bpx, bq) :: bs)
        simp [aggregateLevelsFuel, hc, hq, ih]
        omega
      · have ih := aggregateLevelsFuel_length cmp n ((apx, aq) :: as) bs
        simp [aggregateLevelsFuel, hc, hq, ih]
        omega
    · have ih := aggregateLevelsFuel_length cmp n ((apx, aq) :: as) bs
      simp [aggregateLevelsFuel, hc, ih]
      omega

theorem prices_nil : prices [] = [] := rfl

theorem prices_cons (p : Level) (A : List Level) :
    prices (p :: A) = p.1 :: prices A := rfl

theorem aggregateLevelsFuel_price_mem (cmp : Price → Price → Ordering) :
    ∀ (n : Nat) (A B : List Level) (l : SummaryLevel),
      l ∈ aggregateLevelsFuel cmp n A B →
      l.price ∈ prices A ∨ l.price ∈ prices B
  | 0, A, B, l => by simp [aggregateLevelsFuel]
  | n + 1, [], [], l => by simp [aggregateLevelsFuel]
  | n + 1, (px, qty) :: as, [], l => by
    intro hx
    simp only [aggregateLevelsFuel] at hx
    rcases List.mem_cons.mp hx with heq | hmem
    · left
      rw [heq, prices_cons]
      exact List.mem_cons_self _ _
    · rcases aggregateLevelsFuel_price_mem cmp n as [] l hmem with h1 | h2
      · left
        rw [prices_cons]
        exact List.mem_cons_of_mem _ h1
      · right
        exact h2
  | n + 1, [], (px, qty) :: bs, l => by
    intro hx
    simp only [aggregateLevelsFuel] at hx
    rcases List.mem_cons.mp hx with heq | hmem
    · right
      rw [heq, prices_cons]
      exact List.mem_cons_self _ _
    · rcases aggregateLevelsFuel_price_mem cmp n [] bs l hmem with h1 | h2
      · left
        exact h1
      · right
        rw [prices_cons]
        exact List.mem_cons_of_mem _ h2
  | n + 1, (apx, aq) :: as, (bpx, bq) :: bs, l => by
    intro hx
    rcases hc : cmp apx bpx with _ | _ | _
    · simp only [aggregateLevelsFuel, hc] at hx
      rcases List.mem_cons.mp hx with heq | hmem
      · left
        rw [heq, prices_cons]
        exact List.mem_cons_self _ _
      · rcases aggregateLevelsFuel_price_mem cmp n as ((bpx, bq) :: bs) l hmem with h1 | h2
        · left
          rw [prices_cons]
          exact List.mem_cons_of_mem _ h1
        · right
          exact h2
    · by_cases hq : aq > bq
      · simp only [aggregateLevelsFuel, hc, if_pos hq] at hx
        rcases List.mem_cons.mp hx with heq | hmem
        · left
          rw [heq, prices_cons]
          exact List.mem_cons_self _ _
        · rcases aggregateLevelsFuel_price_mem cmp n as ((bpx, bq) :: bs) l hmem with h1 | h2
          · left
            rw [prices_cons]
            exact List.mem_cons_of_mem _ h1
          · right
            exact h2
      · simp only [aggregateLevelsFuel, hc, if_neg hq] at hx
        rcases List.mem_cons.mp hx with heq | hmem
        · right
          rw [heq, prices_cons]
          exact List.mem_cons_self _ _
        · rcases aggregateLevelsFuel_price_mem cmp n ((apx, aq) :: as) bs l hmem with h1 | h2
          · left
            exact h1
          · right
            rw [prices_cons]
            exact List.mem_cons_of_mem _ h2
    · simp only [aggregateLevelsFuel, hc] at hx
      rcases List.mem_cons.mp hx with heq | hmem
      · right
        rw [heq, prices_cons]
        exact List.mem_cons_self _ _
      · rcases aggregateLevelsFuel_price_mem cmp n ((apx, aq) :: as) bs l hmem with h1 | h2
        · left
          exact h1
        · right
          rw [prices_cons]
          exact List.mem_cons_of_mem _ h2

theorem aggregateLevelsFuel_sorted (cmp : Price → Price → Ordering)
    (r : ℚ → ℚ → Prop)
    (hlt : ∀ x y, cmp x y = .lt → r x y)
    (heq : ∀ x y, cmp x y = .eq → r x y ∧ r y x)
    (hgt : ∀ x y, cmp x y = .gt → r y x)
    (htr : Transitive r) :
    ∀ (n : Nat) (A B : List Level),
      (prices A).Sorted r → (prices B).Sorted r →
      ((aggregateLevelsFuel cmp n A B).map SummaryLevel.price).Sorted r
  | 0, A, B => fun _ _ => by simp [aggregateLevelsFuel]
  | n + 1, [], [] => fun _ _ => by simp [aggregateLevelsFuel]
  | n + 1, (px, qty) :: as, [] => fun hA hB => by
    rw [prices_cons] at hA
    rcases List.sorted_cons.mp hA with ⟨ha, hA'⟩
    simp only [aggregateLevelsFuel, List.map_cons, make_level]
    refine List.sorted_cons.mpr ⟨?_, ?_⟩
    · intro x hx
      rcases List.mem_map.mp hx with ⟨l, hl, rfl⟩
      rcases aggregateLevelsFuel_price_mem cmp n as [] l hl with h1 | h2
      · exact ha _ h1
      · simp [prices_nil] at h2
    · exact aggregateLevelsFuel_sorted cmp r hlt heq hgt htr n as [] hA' hB
  | n + 1, [], (px, qty) :: bs => fun hA hB => by
    rw [prices_cons] at hB
    rcases List.sorted_cons.mp hB with ⟨hb, hB'⟩
    simp only [aggregateLevelsFuel, List.map_cons, make_level]
    refine List.sorted_cons.mpr ⟨?_, ?_⟩
    · intro x hx
      rcases List.mem_map.mp hx with ⟨l, hl, rfl⟩
      rcases aggregateLevelsFuel_price_mem cmp n [] bs l hl with h1 | h2
      · simp [prices_nil] at h1
      · exact hb _ h2
    · exact aggregateLevelsFuel_sorted cmp r hlt heq hgt htr n [] bs hA hB'
  | n + 1, (apx, aq) :: as, (bpx, bq) :: bs => fun hA hB => by
    rw [prices_cons] at hA hB
    rcases List.sorted_cons.mp hA with ⟨ha, hA'⟩
    rcases List.sorted_cons.mp hB with ⟨hb, hB'⟩
    rcases hc : cmp apx bpx with _ | _ | _
    · simp only [aggregateLevelsFuel, hc, List.map_cons, make_level]
      refine List.sorted_cons.mpr ⟨?_, ?_⟩
      · intro x hx
        rcases List.mem_map.mp hx with ⟨l, hl, rfl⟩
        rcases aggregateLevelsFuel_price_mem cmp n as ((bpx, bq) :: bs) l hl with h1 | h2
        · exact ha _ h1
        · rw [prices_cons] at h2
          rcases List.mem_cons.mp h2 with hx2 | hx2
          · exact hx2 ▸ hlt apx bpx hc
          · exact htr (hlt apx bpx hc) (hb _ hx2)
      · refine aggregateLevelsFuel_sorted cmp r hlt heq hgt htr n as ((bpx, bq) :: bs) hA' ?_
        rw [prices_cons]
        exact List.sorted_cons.mpr ⟨hb, hB'⟩
    · by_cases hq : aq > bq
      · simp only [aggregateLevelsFuel, hc, if_pos hq, List.map_cons, make_level]
        refine List.sorted_cons.mpr ⟨?_, ?_⟩
        · intro x hx
          rcases List.mem_map.mp hx with ⟨l, hl, rfl⟩
          rcases aggregateLevelsFuel_price_mem cmp n as ((bpx, bq) :: bs) l hl with h1 | h2
          · exact ha _ h1
          · rw [prices_cons] at h2
            rcases List.mem_cons.mp h2 with hx2 | hx2
            · exact hx2 ▸ (heq apx bpx hc).1
            · exact htr (heq apx bpx hc).1 (hb _ hx2)
        · refine aggregateLevelsFuel_sorted cmp r hlt heq hgt htr n as ((bpx, bq) :: bs) hA' ?_
          rw [prices_cons]
          exact List.sorted_cons.mpr ⟨hb, hB'⟩
      · simp only [aggregateLevelsFuel, hc, if_neg hq, List.map_cons, make_level]
        refine List.sorted_cons.mpr ⟨?_, ?_⟩
        · intro x hx
          rcases List.mem_map.mp hx with ⟨l, hl, rfl⟩
          rcases aggregateLevelsFuel_price_mem cmp n ((apx, aq) :: as) bs l hl with h1 | h2
          · rw [prices_cons] at h1
            rcases List.mem_cons.mp h1 with hx1 | hx1
            · exact hx1 ▸ (heq apx bpx hc).2
            · exact htr (heq apx bpx hc).2 (ha _ hx1)
          · exact hb _ h2
        · refine aggregateLevelsFuel_sorted cmp r hlt heq hgt htr n ((apx, aq) :: as) bs ?_ hB'
          rw [prices_cons]
          exact List.sorted_cons.mpr ⟨ha, hA'⟩
    · simp only [aggregateLevelsFuel, hc, List.map_cons, make_level]
      refine List.sorted_cons.mpr ⟨?_, ?_⟩
      · intro x hx
        rcases List.mem_map.mp hx with ⟨l, hl, rfl⟩
        rcases aggregateLevelsFuel_price_mem cmp n ((apx, aq) :: as) bs l hl with h1 | h2
        · rw [prices_cons] at h1
          rcases List.mem_cons.mp h1 with hx1 | hx1
          · exact hx1 ▸ hgt apx bpx hc
          · exact htr (hgt apx bpx hc) (ha _ hx1)
        · exact hb _ h2
      · refine aggregateLevelsFuel_sorted cmp r hlt heq hgt htr n ((apx, aq) :: as) bs ?_ hB'
        rw [prices_cons]
        exact List.sorted_cons.mpr ⟨ha, hA'⟩

theorem aggerate_levels_asks_sorted (A B : List Level)
    (hA : (prices A).Sorted (· ≤ ·)) (hB : (prices B).Sorted (· ≤ ·)) :
    ((aggerate_levels A B cmpAsk).map SummaryLevel.price).Sorted (· ≤ ·) := by
  refine aggregateLevelsFuel_sorted cmpAsk (· ≤ ·) ?_ ?_ ?_ ?_ 10 A B hA hB
  · intro x y h
    exact le_of_lt (compare_lt_iff_lt.mp h)
  · intro x y h
    have hxy := compare_eq_iff_eq.mp h
    exact ⟨le_of_eq hxy, le_of_eq hxy.symm⟩
  · intro x y h
    exact le_of_lt (compare_gt_iff_gt.mp h)
  · exact fun a b c h1 h2 => le_trans h1 h2

theorem cmpBid_lt {x y : ℚ} (h : cmpBid x y = .lt) : y < x :=
  compare_gt_iff_gt.mp ((@Ordering.swap_inj (compare x y) Ordering.gt).mp h)

theorem cmpBid_eq {x y : ℚ} (h : cmpBid x y = .eq) : x = y :=
  compare_eq_iff_eq.mp ((@Ordering.swap_inj (compare x y) Ordering.eq).mp h)

theorem cmpBid_gt {x y : ℚ} (h : cmpBid x y = .gt) : x < y :=
  compare_lt_iff_lt.mp ((@Ordering.swap_inj (compare x y) Ordering.lt).mp h)

theorem aggerate_levels_bids_sorted (A B : List Level)
    (hA : (prices A).Sorted (· ≥ ·)) (hB : (prices B).Sorted (· ≥ ·)) :
    ((aggerate_levels A B cmpBid).map SummaryLevel.price).Sorted (· ≥ ·) := by
  refine aggregateLevelsFuel_sorted cmpBid (· ≥ ·) ?_ ?_ ?_ ?_ 10 A B hA hB
  · intro x y h
    exact le_of_lt (cmpBid_lt h)
  · intro x y h
    have hxy := cmpBid_eq h
    exact ⟨le_of_eq hxy.symm, le_of_eq hxy⟩
  · intro x y h
    exact le_of_lt (cmpBid_gt h)
  · exact fun a b c h1 h2 => le_trans h2 h1

theorem sortBids_prices_sorted (l : List Level) :
    (prices (sortBids l)).Sorted (· ≥ ·) := by
  haveI ht : IsTotal Level (fun x y : Level => y.1 ≤ x.1) := ⟨fun a b => le_total b.1 a.1⟩
  haveI htr : IsTrans Level (fun x y : Level => y.1 ≤ x.1) :=
    ⟨fun a b c h1 h2 => le_trans h2 h1⟩
  have hs : (sortBids l).Sorted (fun x y : Level => y.1 ≤ x.1) :=
    List.sorted_insertionSort _ l
  exact hs.map Prod.fst (fun a b h => h)

theorem sortAsks_prices_sorted (l : List Level) :
    (prices (sortAsks l)).Sorted (· ≤ ·) := by
  haveI ht : IsTotal Level (fun x y : Level => x.1 ≤ y.1) := ⟨fun a b => le_total a.1 b.1⟩
  haveI htr : IsTrans Level (fun x y : Level => x.1 ≤ y.1) :=
    ⟨fun a b c h1 h2 => le_trans h1 h2⟩
  have hs : (sortAsks l).Sorted (fun x y : Level => x.1 ≤ y.1) :=
    List.sorted_insertionSort _ l
  exact hs.map Prod.fst (fun a b h => h)

theorem aggerate_levels_cons_cons (cmp : Price → Price → Ordering)
    (apx bpx : Price) (aq bq : Qty) (as bs : List Level) :
    aggerate_levels ((apx, aq) :: as) ((bpx, bq) :: bs) cmp =
      match cmp apx bpx with
      | .lt => make_level "bitstamp" apx aq :: aggregateLevelsFuel cmp 9 as ((bpx, bq) :: bs)
      | .eq =>
        if aq > bq then
          make_level "bitstamp" apx aq :: aggregateLevelsFuel cmp 9 as ((bpx, bq) :: bs)
        else
          make_level "binance" bpx bq :: aggregateLevelsFuel cmp 9 ((apx, aq) :: as) bs
      | .gt => make_level "binance" bpx bq :: aggregateLevelsFuel cmp 9 ((apx, aq) :: as) bs := rfl

theorem computeSummary_none_iff (b₁ b₂ : Book) :
    computeSummary b₁ b₂ = none ↔
      aggerate_levels b₁.bids b₂.bids cmpBid = [] ∨
        aggerate_levels b₁.asks b₂.asks cmpAsk = [] := by
  simp only [computeSummary]
  rcases hbb : aggerate_levels b₁.bids b₂.bids cmpBid with _ | ⟨bb, brest⟩ <;>
    rcases hab : aggerate_levels b₁.asks b₂.asks cmpAsk with _ | ⟨ab, arest⟩ <;>
    simp

theorem computeSummary_some_eq {b₁ b₂ : Book} {s : Summary}
    (h : computeSummary b₁ b₂ = some s) :
    s.bids = aggerate_levels b₁.bids b₂.bids cmpBid ∧
      s.asks = aggerate_levels b₁.asks b₂.asks cmpAsk ∧
      s.spread = s.asks.head!.price - s.bids.head!.price := by
  simp only [computeSummary] at h
  rcases hbb : aggerate_levels b₁.bids b₂.bids cmpBid with _ | ⟨bb, brest⟩ <;>
    rcases hab : aggerate_levels b₁.asks b₂.asks cmpAsk with _ | ⟨ab, arest⟩ <;>
    rw [hbb, hab] at h <;> simp at h
  subst h
  simp [List.head!]

/-- C3: for any two input sequences each sorted ascending under a total order,
the ordered-merge iterator with direction `lt` yields a sequence sorted
ascending whose multiset of elements is the multiset union of the inputs; the
symmetric property holds for descending inputs with direction `gt`. -/
theorem ordChain_merges_sorted :
    (∀ (α : Type) [LinearOrder α] (A B : List α),
        A.Sorted (· ≤ ·) → B.Sorted (· ≤ ·) →
        ((ordChain .lt A B).map untag).Sorted (· ≤ ·) ∧
          ((ordChain .lt A B).map untag : Multiset α) =
            (A : Multiset α) + (B : Multiset α)) ∧
    (∀ (α : Type) [LinearOrder α] (A B : List α),
        A.Sorted (· ≥ ·) → B.Sorted (· ≥ ·) →
        ((ordChain .gt A B).map untag).Sorted (· ≥ ·) ∧
          ((ordChain .gt A B).map untag : Multiset α) =
            (A : Multiset α) + (B : Multiset α)) := by
  constructor
  · intro α _ A B hA hB
    refine ⟨?_, ?_⟩
    · refine ordChain_sorted_general .lt (· ≤ ·) ?_ ?_ ?_ A B hA hB
      · intro x y h
        exact le_of_lt (compare_lt_iff_lt.mp h)
      · intro x y h
        exact le_of_not_lt (fun hlt => h (compare_lt_iff_lt.mpr hlt))
      · exact fun a b c h1 h2 => le_trans h1 h2
    · have hp := ordChain_perm (α := α) .lt A B
      calc ((ordChain .lt A B).map untag : Multiset α)
          = ((A ++ B : List α) : Multiset α) := Multiset.coe_eq_coe.mpr hp
        _ = (A : Multiset α) + (B : Multiset α) := by simp
  · intro α _ A B hA hB
    refine ⟨?_, ?_⟩
    · refine ordChain_sorted_general .gt (· ≥ ·) ?_ ?_ ?_ A B hA hB
      · intro x y h
        exact le_of_lt (compare_gt_iff_gt.mp h)
      · intro x y h
        exact le_of_not_lt (fun hlt => h (compare_gt_iff_gt.mpr hlt))
      · exact fun a b c h1 h2 => le_trans h2 h1
    · have hp := ordChain_perm (α := α) .gt A B
      calc ((ordChain .gt A B).map untag : Multiset α)
          = ((A ++ B : List α) : Multiset α) := Multiset.coe_eq_coe.mpr hp
        _ = (A : Multiset α) + (B : Multiset α) := by simp

/-- C3 witness: the merge of `[1, 3]` and `[2, 4]` over ℤ. -/
theorem ordChain_merges_sorted_witness :
    (((ordChain .lt [1, 3] [2, 4] : List (ℤ ⊕ ℤ)).map untag).Sorted (· ≤ ·) ∧
        ((ordChain .lt [1, 3] [2, 4] : List (ℤ ⊕ ℤ)).map untag : Multiset ℤ) =
          (([1, 3] : List ℤ) : Multiset ℤ) + (([2, 4] : List ℤ) : Multiset ℤ)) :=
  ordChain_merges_sorted.1 ℤ [1, 3] [2, 4] (by decide) (by decide)

/-- C8: on each pull with both heads present, `OrderedChain` consumes from `A`
exactly when the head of `A` compares strictly as the configured direction
against the head of `B`, and consumes from `B` otherwise; in particular on
equal heads (`A = [5]`, `B = [5]`, ascending) the first element pulled is the
one tagged as coming from `B`. -/
theorem ordChain_consume_rule :
    (∀ (α : Type) [LinearOrder α] (d : Ordering) (a b : α) (as bs : List α),
        ordChain d (a :: as) (b :: bs) =
          if compare a b = d then Sum.inl a :: ordChain d as (b :: bs)
          else Sum.inr b :: ordChain d (a :: as) bs) ∧
    (ordChain .lt [(5 : ℤ)] [5]).head? = some (Sum.inr 5) := by
  constructor
  · intro α _ d a b as bs
    rw [ordChain]
  · simp [ordChain]
    decide


/-- C8 witness: the consume rule applied at heads 1 and 2 over ℤ. -/
theorem ordChain_consume_rule_witness :
    ordChain .lt [(1 : ℤ)] [2] =
      if compare (1 : ℤ) 2 = .lt then Sum.inl 1 :: ordChain .lt ([] : List ℤ) [2]
      else Sum.inr 2 :: ordChain .lt [(1 : ℤ)] [] :=
  ordChain_consume_rule.1 ℤ .lt 1 2 [] []

/-- C9: every emitted `Summary` has its bid prices sorted non-increasing and
its ask prices sorted non-decreasing, given each venue's sides sorted under the
required orderings — which the update path establishes by re-sorting
defensively (`sortBids`, `sortAsks`). -/
theorem summary_sides_sorted :
    (∀ (b₁ b₂ : Book) (s : Summary),
        (prices b₁.bids).Sorted (· ≥ ·) → (prices b₂.bids).Sorted (· ≥ ·) →
        (prices b₁.asks).Sorted (· ≤ ·) → (prices b₂.asks).Sorted (· ≤ ·) →
        computeSummary b₁ b₂ = some s →
        (s.bids.map SummaryLevel.price).Sorted (· ≥ ·) ∧
          (s.asks.map SummaryLevel.price).Sorted (· ≤ ·)) ∧
    (∀ l : List Level, (prices (sortBids l)).Sorted (· ≥ ·)) ∧
    (∀ l : List Level, (prices (sortAsks l)).Sorted (· ≤ ·)) := by
  refine ⟨?_, sortBids_prices_sorted, sortAsks_prices_sorted⟩
  intro b₁ b₂ s h1 h2 h3 h4 hs
  obtain ⟨hb, ha, _⟩ := computeSummary_some_eq hs
  rw [hb, ha]
  exact ⟨aggerate_levels_bids_sorted _ _ h1 h2, aggerate_levels_asks_sorted _ _ h3 h4⟩

/-- C9 witness: the summary computed from concrete sorted books. -/
theorem summary_sides_sorted_witness :
    (([make_level "binance" 3 2, make_level "bitstamp" 3 1,
        make_level "bitstamp" 2 1].map SummaryLevel.price).Sorted (· ≥ ·) ∧
      (([make_level "bitstamp" 4 1,
          make_level "binance" 5 1]).map SummaryLevel.price).Sorted (· ≤ ·)) :=
  summary_sides_sorted.1 ⟨[((3 : ℚ), 1), ((2 : ℚ), 1)], [((4 : ℚ), 1)]⟩
    ⟨[((3 : ℚ), 2)], [((5 : ℚ), 1)]⟩
    ⟨(4 : ℚ) - 3, [make_level "binance" 3 2, make_level "bitstamp" 3 1, make_level "bitstamp" 2 1],
      [make_level "bitstamp" 4 1, make_level "binance" 5 1]⟩
    (by decide) (by decide) (by decide) (by decide) rfl

/-- C4: the aggregation step produces no `Summary` exactly when one of the two
computed sides is empty; otherwise the published `Summary` satisfies
`spread = asks[0].price - bids[0].price`, and a crossed book (best bid 101,
best ask 100) is published unchanged with spread `-1`. -/
theorem publication_rule :
    (∀ b₁ b₂ : Book,
        computeSummary b₁ b₂ = none ↔
          aggerate_levels b₁.bids b₂.bids cmpBid = [] ∨
            aggerate_levels b₁.asks b₂.asks cmpAsk = []) ∧
    (∀ (b₁ b₂ : Book) (s : Summary),
        computeSummary b₁ b₂ = some s →
        s.spread = s.asks.head!.price - s.bids.head!.price) ∧
    (computeSummary ⟨[((101 : ℚ), 1)], []⟩ ⟨[], [((100 : ℚ), 1)]⟩).map Summary.spread =
      some (-1) := by
  refine ⟨computeSummary_none_iff, ?_, ?_⟩
  · intro b₁ b₂ s hs
    exact (computeSummary_some_eq hs).2.2
  · show some ((100 : ℚ) - 101) = some (-1)
    norm_num

/-- C4 witness: two empty books publish nothing. -/
theorem publication_rule_witness :
    computeSummary ⟨[], []⟩ ⟨[], []⟩ = none :=
  (publication_rule.1 ⟨[], []⟩ ⟨[], []⟩).mpr (Or.inl rfl)

/-- C2 counterexample: with Bitstamp holding one bid and two asks and Binance
empty, the emitted `Summary` has 1 bid level but 2 ask levels, refuting
`|bids| = |asks|`. -/
theorem summary_side_lengths_unequal_cex :
    (computeSummary ⟨[((100 : ℚ), 1)], [((101 : ℚ), 1), ((102 : ℚ), 1)]⟩ ⟨[], []⟩).map
        (fun s => (s.bids.length, s.asks.length)) = some (1, 2) := rfl

/-- C2 (amended): each side of an emitted `Summary` has length
`min 10 (combined input length of that side)`: both sides are at most 10 and a
side is exactly 10 whenever its combined input reaches 10; the two sides need
not have equal lengths. -/
theorem summary_side_lengths_clamped :
    ∀ (b₁ b₂ : Book) (s : Summary), computeSummary b₁ b₂ = some s →
      s.bids.length = min 10 (b₁.bids.length + b₂.bids.length) ∧
        s.asks.length = min 10 (b₁.asks.length + b₂.asks.length) ∧
        s.bids.length ≤ 10 ∧ s.asks.length ≤ 10 ∧
        (10 ≤ b₁.bids.length + b₂.bids.length → s.bids.length = 10) ∧
        (10 ≤ b₁.asks.length + b₂.asks.length → s.asks.length = 10) := by
  intro b₁ b₂ s hs
  obtain ⟨hb, ha, _⟩ := computeSummary_some_eq hs
  have lb : s.bids.length = min 10 (b₁.bids.length + b₂.bids.length) := by
    rw [hb]
    exact aggregateLevelsFuel_length cmpBid 10 b₁.bids b₂.bids
  have la : s.asks.length = min 10 (b₁.asks.length + b₂.asks.length) := by
    rw [ha]
    exact aggregateLevelsFuel_length cmpAsk 10 b₁.asks b₂.asks
  refine ⟨lb, la, ?_, ?_, ?_, ?_⟩ <;> omega

/-- C2 witness: 11 Bitstamp bids clamp to 10; a single Binance ask stays 1. -/
theorem summary_side_lengths_clamped_witness :
    ([make_level "bitstamp" 20 1, make_level "bitstamp" 19 1, make_level "bitstamp" 18 1,
        make_level "bitstamp" 17 1, make_level "bitstamp" 16 1, make_level "bitstamp" 15 1,
        make_level "bitstamp" 14 1, make_level "bitstamp" 13 1, make_level "bitstamp" 12 1,
        make_level "bitstamp" 11 1].length =
        min 10 (([((20 : ℚ), (1 : ℚ)), (19, 1), (18, 1), (17, 1), (16, 1), (15, 1), (14, 1),
          (13, 1), (12, 1), (11, 1), (10, 1)] : List Level).length + ([] : List Level).length)) ∧
      ([make_level "binance" 30 1].length =
        min 10 (([] : List Level).length + ([((30 : ℚ), (1 : ℚ))] : List Level).length)) ∧
      [make_level "bitstamp" 20 1, make_level "bitstamp" 19 1, make_level "bitstamp" 18 1,
        make_level "bitstamp" 17 1, make_level "bitstamp" 16 1, make_level "bitstamp" 15 1,
        make_level "bitstamp" 14 1, make_level "bitstamp" 13 1, make_level "bitstamp" 12 1,
        make_level "bitstamp" 11 1].length ≤ 10 ∧
      [make_level "binance" 30 1].length ≤ 10 ∧
      (10 ≤ ([((20 : ℚ), (1 : ℚ)), (19, 1), (18, 1), (17, 1), (16, 1), (15, 1), (14, 1),
          (13, 1), (12, 1), (11, 1), (10, 1)] : List Level).length + ([] : List Level).length →
        [make_level "bitstamp" 20 1, make_level "bitstamp" 19 1, make_level "bitstamp" 18 1,
          make_level "bitstamp" 17 1, make_level "bitstamp" 16 1, make_level "bitstamp" 15 1,
          make_level "bitstamp" 14 1, make_level "bitstamp" 13 1, make_level "bitstamp" 12 1,
          make_level "bitstamp" 11 1].length = 10) ∧
      (10 ≤ ([] : List Level).length + ([((30 : ℚ), (1 : ℚ))] : List Level).length →
        [make_level "binance" 30 1].length = 10) :=
  summary_side_lengths_clamped
    ⟨[((20 : ℚ), (1 : ℚ)), (19, 1), (18, 1), (17, 1), (16, 1), (15, 1), (14, 1),
        (13, 1), (12, 1), (11, 1), (10, 1)], []⟩
    ⟨[], [((30 : ℚ), (1 : ℚ))]⟩
    ⟨(30 : ℚ) - 20,
      [make_level "bitstamp" 20 1, make_level "bitstamp" 19 1, make_level "bitstamp" 18 1,
        make_level "bitstamp" 17 1, make_level "bitstamp" 16 1, make_level "bitstamp" 15 1,
        make_level "bitstamp" 14 1, make_level "bitstamp" 13 1, make_level "bitstamp" 12 1,
        make_level "bitstamp" 11 1],
      [make_level "binance" 30 1]⟩
    rfl

/-- C10: when the Bitstamp and Binance heads have equal price, the level with
strictly greater quantity is emitted first (Bitstamp exactly when its quantity
is strictly greater), and otherwise — including equal quantities — the Binance
level is emitted first. -/
theorem equal_price_head_tiebreak :
    ∀ (cmp : Price → Price → Ordering) (apx bpx : Price) (aq bq : Qty)
      (as bs : List Level),
      cmp apx bpx = .eq →
      (aggerate_levels ((apx, aq) :: as) ((bpx, bq) :: bs) cmp).head? =
        some (if aq > bq then make_level "bitstamp" apx aq
          else make_level "binance" bpx bq) := by
  intro cmp apx bpx aq bq as bs hc
  rw [aggerate_levels_cons_cons, hc]
  by_cases hq : aq > bq
  · rw [if_pos hq, if_pos hq]
    rfl
  · rw [if_neg hq, if_neg hq]
    rfl

/-- C10 witness: equal price 7, Bitstamp quantity 5 beats Binance quantity 2. -/
theorem equal_price_head_tiebreak_witness :
    (aggerate_levels [((7 : ℚ), 5)] [((7 : ℚ), 2)] cmpAsk).head? =
      some (if (5 : ℚ) > 2 then make_level "bitstamp" 7 5 else make_level "binance" 7 2) :=
  equal_price_head_tiebreak cmpAsk 7 7 5 2 [] [] (by decide)

/-- C1 counterexample: with equal best price 100 and Bitstamp quantity 2
against Binance quantity 1, `aggerate_levels` emits the Bitstamp level first,
refuting the claim that Binance is always emitted first on a price tie. -/
theorem aggerate_levels_tie_binance_first_cex :
    (aggerate_levels [((100 : ℚ), 2)] [((100 : ℚ), 1)] cmpBid).map SummaryLevel.exchange =
      ["bitstamp", "binance"] := rfl

/-- C1 (amended): when both venues quote an equal price at the heads and
Bitstamp's quantity is not strictly greater than Binance's, the Binance level
is emitted first, on either side's ordering. -/
theorem tie_binance_first_unless_greater_qty :
    ∀ (px : Price) (aq bq : Qty) (as bs : List Level),
      aq ≤ bq →
      (aggerate_levels ((px, aq) :: as) ((px, bq) :: bs) cmpBid).head? =
          some (make_level "binance" px bq) ∧
        (aggerate_levels ((px, aq) :: as) ((px, bq) :: bs) cmpAsk).head? =
          some (make_level "binance" px bq) := by
  intro px aq bq as bs hq
  have hnq : ¬aq > bq := not_lt.mpr hq
  have hcb : cmpBid px px = .eq := by
    rw [cmpBid, compare_eq_iff_eq.mpr rfl]
    rfl
  have hca : cmpAsk px px = .eq := compare_eq_iff_eq.mpr rfl
  constructor
  · rw [aggerate_levels_cons_cons, hcb, if_neg hnq]
    rfl
  · rw [aggerate_levels_cons_cons, hca, if_neg hnq]
    rfl

/-- C1 witness: the spec's own scenario 2 — price 100, quantities 1 vs 9. -/
theorem tie_binance_first_unless_greater_qty_witness :
    (aggerate_levels [((100 : ℚ), 1)] [((100 : ℚ), 9)] cmpBid).head? =
        some (make_level "binance" 100 9) ∧
      (aggerate_levels [((100 : ℚ), 1)] [((100 : ℚ), 9)] cmpAsk).head? =
        some (make_level "binance" 100 9) :=
  tie_binance_first_unless_greater_qty 100 1 9 [] [] (by decide)

/-- C6 counterexample: a Bitstamp frame with `event` value `trade` (neither of
the two administrative tags) and a well-formed `data` field fails to decode
with an unknown-variant error instead of being treated as a book update. -/
theorem bitstamp_unknown_event_decode_fails_cex :
    decodeFeedMessage ⟨"trade", some "order_book_ethbtc", none, none, some ⟨[], []⟩⟩ =
      .error "unknown variant" := rfl

/-- C6 (amended): a Bitstamp frame decodes as a book update exactly when its
`event` field equals `data` (extracting `data.bids` and `data.asks`); any
`event` value other than the three variant tags is an unknown-variant decode
failure. -/
theorem bitstamp_decode_taxonomy :
    (∀ (f : BitstampJson) (c : String) (d : BookUpdateMsg),
        f.event = "data" → f.channel = some c → f.data = some d →
        decodeFeedMessage f = .ok (.data c d)) ∧
    (∀ f : BitstampJson,
        f.event ≠ "bts:subscription_succeeded" → f.event ≠ "bts:error" →
        f.event ≠ "data" →
        decodeFeedMessage f = .error "unknown variant") := by
  constructor
  · intro f c d he hc hd
    rw [decodeFeedMessage, he, hc, hd]
    rfl
  · intro f h1 h2 h3
    rw [decodeFeedMessage, if_neg h1, if_neg h2, if_neg h3]

/-- C6 witness: a concrete `data` frame decodes to its book update. -/
theorem bitstamp_decode_taxonomy_witness :
    decodeFeedMessage ⟨"data", some "order_book_ethbtc", none, none,
        some ⟨[((2 : ℚ), 3)], [((4 : ℚ), 5)]⟩⟩ =
      .ok (.data "order_book_ethbtc" ⟨[((2 : ℚ), 3)], [((4 : ℚ), 5)]⟩) :=
  bitstamp_decode_taxonomy.1 _ "order_book_ethbtc" ⟨[((2 : ℚ), 3)], [((4 : ℚ), 5)]⟩
    rfl rfl rfl

/-- C5 counterexample: a book update arriving while the broadcast channel has
zero receivers does not let the loop continue — the iteration ends in the
propagated send failure, terminating the aggregator task. -/
theorem send_failure_no_receivers_fatal_cex :
    ((loopIteration ⟨⟨[((100 : ℚ), 1)], [((101 : ℚ), 1)]⟩, ⟨[], []⟩⟩
          (.fromBitstamp (.item (.text ⟨"data", some "c", none, none,
            some ⟨[((100 : ℚ), 1)], [((101 : ℚ), 1)]⟩⟩))) 0).isNext = false) ∧
      ((loopIteration ⟨⟨[((100 : ℚ), 1)], [((101 : ℚ), 1)]⟩, ⟨[], []⟩⟩
          (.fromBitstamp (.item (.text ⟨"data", some "c", none, none,
            some ⟨[((100 : ℚ), 1)], [((101 : ℚ), 1)]⟩⟩))) 0).isSendFailure = true) :=
  ⟨rfl, rfl⟩

/-- C5 (amended): whenever a loop iteration reaches the publish step with a
computed `Summary` and there are no subscribed receivers, the send fails and
the error is propagated out of the loop (`tx.send(...)?`), terminating the
aggregator task; no send failure is survivable. -/
theorem send_failure_terminates_loop :
    ∀ (st st1 : AggState) (ev : SelectEvent) (s : Summary),
      armStep st ev = .proceed st1 →
      computeSummary st1.bitstamp_book st1.binance_book = some s →
      loopIteration st ev 0 = .sendFailure st1 s := by
  intro st st1 ev s ha hcs
  rw [loopIteration, ha]
  simp only [hcs]
  rfl

/-- C5 witness: a ping falling through with populated books and zero
receivers. -/
theorem send_failure_terminates_loop_witness :
    loopIteration ⟨⟨[((100 : ℚ), 1)], [((101 : ℚ), 1)]⟩, ⟨[], []⟩⟩
        (.fromBitstamp (.item .ping)) 0 =
      .sendFailure ⟨⟨[((100 : ℚ), 1)], [((101 : ℚ), 1)]⟩, ⟨[], []⟩⟩
        ⟨(101 : ℚ) - 100, [make_level "bitstamp" 100 1], [make_level "bitstamp" 101 1]⟩ :=
  send_failure_terminates_loop _ _ _ _ rfl rfl

/-- C7 counterexample: a pong frame from Bitstamp leaves both books unchanged
but does not skip publication — the unchanged books are re-aggregated and a
`Summary` is published, refuting the claim that no `Summary` is published. -/
theorem bitstamp_nontext_frame_publishes_cex :
    loopIteration ⟨⟨[((100 : ℚ), 1)], [((101 : ℚ), 1)]⟩, ⟨[], []⟩⟩
        (.fromBitstamp (.item .pong)) 1 =
      .next ⟨⟨[((100 : ℚ), 1)], [((101 : ℚ), 1)]⟩, ⟨[], []⟩⟩
        (some ⟨(101 : ℚ) - 100, [make_level "bitstamp" 100 1],
          [make_level "bitstamp" 101 1]⟩) := rfl

/-- C7 (amended): a non-text frame from Binance is ignored (`continue`): books
unchanged and nothing published.  A non-text frame from Bitstamp hits the
`_ => {}` catch-all and falls through: books are unchanged, but the aggregation
step re-runs and re-publishes the summary of the unchanged books when both
sides are non-empty. -/
theorem nontext_frame_effect :
    (∀ (st : AggState) (m : WsMessage (Option BookUpdateMsg)) (r : Nat),
        (∀ p, m ≠ .text p) →
        loopIteration st (.fromBinance (.item m)) r = .next st none) ∧
    (∀ (st : AggState) (m : WsMessage BitstampJson) (r : Nat),
        (∀ p, m ≠ .text p) → r ≠ 0 →
        loopIteration st (.fromBitstamp (.item m)) r =
          .next st (computeSummary st.bitstamp_book st.binance_book)) := by
  constructor
  · intro st m r hm
    cases m with
    | text p => exact absurd rfl (hm p)
    | ping => rfl
    | pong => rfl
    | binary => rfl
    | close => rfl
  · intro st m r hm hr
    have harm : armStep st (.fromBitstamp (.item m)) = .proceed st := by
      cases m with
      | text p => exact absurd rfl (hm p)
      | ping => rfl
      | pong => rfl
      | binary => rfl
      | close => rfl
    rw [loopIteration, harm]
    rcases hcs : computeSummary st.bitstamp_book st.binance_book with _ | s
    · simp only [hcs]
    · simp only [hcs, broadcastSend, if_neg hr]

/-- C7 witness: a Binance ping with populated Bitstamp book publishes
nothing. -/
theorem nontext_frame_effect_witness :
    loopIteration ⟨⟨[((100 : ℚ), 1)], [((101 : ℚ), 1)]⟩, ⟨[], []⟩⟩
        (.fromBinance (.item .ping)) 1 =
      .next ⟨⟨[((100 : ℚ), 1)], [((101 : ℚ), 1)]⟩, ⟨[], []⟩⟩ none :=
  nontext_frame_effect.1 _ .ping 1 (fun _ h => WsMessage.noConfusion h)

end SpreadFeed
